import Mathlib

/-!
Verification development for the `v_e_x_` backend, a minimal actix-web HTTP
server with a single diagnostic endpoint.

Source files embedded here:
* `src/backend/src/main.rs` — server bootstrap: prints a startup line,
  binds `127.0.0.1:8080`, and serves the configured routes.
* `src/backend/src/routes/test.rs` — route table (`GET /test`) and the
  handler `test_endpoint`, which returns HTTP 200 with a JSON body
  `{"message": ..., "status": ..., "timestamp": chrono::Utc::now().to_rfc3339()}`.

The embedding is shallow: the handler's clock read (`chrono::Utc::now()`)
becomes an explicit `DateTime` argument, `main`'s TCP bind outcome becomes an
explicit environment value, and `to_rfc3339` is modelled after chrono's
`DateTime<Utc>::to_rfc3339` (proleptic-Gregorian rendering of the instant with
`SecondsFormat::AutoSi` subseconds and a literal `+00:00` offset).
-/

/-- Models a `chrono::DateTime<Utc>` instant at nanosecond precision:
whole seconds since the Unix epoch plus the subsecond nanoseconds. -/
structure DateTime where
  secs : Nat
  nanos : Nat
deriving DecidableEq

/-- Well-formed instant: the subsecond part is a genuine nanosecond count. -/
def DateTime.Valid (t : DateTime) : Prop := t.nanos < 1000000000

/-- Chronological order on instants. -/
def DateTime.le (t1 t2 : DateTime) : Prop :=
  t1.secs < t2.secs ∨ (t1.secs = t2.secs ∧ t1.nanos ≤ t2.nanos)

/-- Decimal digit character for a digit value. -/
def dchar (d : Nat) : Char := Char.ofNat (48 + d)

/-- Fixed-width decimal rendering, most significant digit first:
`natDigits k n` is the `k`-character zero-padded numeral of `n`. -/
def natDigits : Nat → Nat → List Char
  | 0, _ => []
  | k + 1, n => dchar (n / 10 ^ k) :: natDigits k (n % 10 ^ k)

/-- Proleptic Gregorian calendar date. -/
structure Date where
  year : Nat
  month : Nat
  day : Nat
deriving DecidableEq

/-- Gregorian leap-year rule. -/
def isLeap (y : Nat) : Bool := y % 4 == 0 && (y % 100 != 0 || y % 400 == 0)

/-- Number of days in a month of the Gregorian calendar. -/
def daysInMonth (y m : Nat) : Nat :=
  if m = 2 then (if isLeap y then 29 else 28)
  else if m = 4 ∨ m = 6 ∨ m = 9 ∨ m = 11 then 30
  else 31

/-- In-range Gregorian calendar date. -/
def ValidDate (d : Date) : Prop :=
  1 ≤ d.month ∧ d.month ≤ 12 ∧ 1 ≤ d.day ∧ d.day ≤ daysInMonth d.year d.month

/-- Calendar successor of a date. -/
def nextDate (d : Date) : Date :=
  if d.day < daysInMonth d.year d.month then ⟨d.year, d.month, d.day + 1⟩
  else if d.month < 12 then ⟨d.year, d.month + 1, 1⟩
  else ⟨d.year + 1, 1, 1⟩

/-- The Unix epoch date. -/
def epochDate : Date := ⟨1970, 1, 1⟩

/-- Gregorian date a given number of days after the Unix epoch. -/
def dateOfDays (n : Nat) : Date := Nat.iterate nextDate n epochDate

/-- Lexicographic (chronological) strict order on calendar dates. -/
def Date.lt (a b : Date) : Prop :=
  a.year < b.year ∨ (a.year = b.year ∧ (a.month < b.month ∨ (a.month = b.month ∧ a.day < b.day)))

/-- Rendering of the `full-date` part, `YYYY-MM-DD`. -/
def dateChars (d : Date) : List Char :=
  natDigits 4 d.year ++ '-' :: (natDigits 2 d.month ++ '-' :: natDigits 2 d.day)

/-- Rendering of the `partial-time` part, `hh:mm:ss`, from the second of day. -/
def timeChars (sod : Nat) : List Char :=
  natDigits 2 (sod / 3600) ++ ':' :: (natDigits 2 (sod % 3600 / 60) ++ ':' :: natDigits 2 (sod % 60))

/-- Subsecond rendering following chrono's `SecondsFormat::AutoSi`: empty for
zero nanoseconds, otherwise 3, 6 or 9 fractional digits depending on which
trailing parts of the nanosecond count vanish. -/
def fracChars (n : Nat) : List Char :=
  if n = 0 then []
  else if n % 1000000 = 0 then '.' :: natDigits 3 (n / 1000000)
  else if n % 1000 = 0 then '.' :: natDigits 6 (n / 1000)
  else '.' :: natDigits 9 n

/-- UTC numeric offset suffix `+00:00` used by `to_rfc3339` (the source passes
`use_z = false` implicitly through `to_rfc3339`). -/
def offChars : List Char := ['+', '0', '0', ':', '0', '0']

/-- Character-level rendering of an instant, per chrono `to_rfc3339`. -/
def rfc3339Chars (t : DateTime) : List Char :=
  dateChars (dateOfDays (t.secs / 86400)) ++
    'T' :: (timeChars (t.secs % 86400) ++ (fracChars t.nanos ++ offChars))

/-- Models `chrono::DateTime<Utc>::to_rfc3339` on the embedded instants. -/
def to_rfc3339 (t : DateTime) : String := ⟨rfc3339Chars t⟩

/-- Minimal JSON value universe: the `json!` literal in the handler only
builds objects of string fields. -/
inductive Json where
  | str (s : String)
  | obj (fields : List (String × Json))

/-- Field projection on a JSON object. -/
def Json.getField : Json → String → Option Json
  | .obj fs, k => List.lookup k fs
  | .str _, _ => none

/-- Models `actix_web::HttpResponse`: status code, headers, optional JSON body. -/
structure HttpResponse where
  status : Nat
  headers : List (String × String)
  body : Option Json

/-- Models `actix_web::HttpResponseBuilder`, carrying the chosen status. -/
structure HttpResponseBuilder where
  status : Nat

/-- Models `HttpResponse::Ok()`: a builder with status 200. -/
def HttpResponse.Ok : HttpResponseBuilder := ⟨200⟩

/-- Models `HttpResponseBuilder::json`: serializes the value (total on this
universe), sets `Content-Type: application/json` and the builder's status. -/
def HttpResponseBuilder.json (b : HttpResponseBuilder) (v : Json) : HttpResponse :=
  ⟨b.status, [("Content-Type", "application/json")], some v⟩

/-- Models `actix_web::Error` (opaque payload). -/
abbrev ActixError : Type := String

/-- Embeds `test_endpoint` from `src/backend/src/routes/test.rs`; the clock
read `chrono::Utc::now()` becomes the explicit argument `now`, sampled at the
moment the handler executes. -/
def test_endpoint (now : DateTime) : Except ActixError HttpResponse :=
  Except.ok (HttpResponse.Ok.json (Json.obj
    [("message", Json.str "Test endpoint is working!"),
     ("status", Json.str "success"),
     ("timestamp", Json.str (to_rfc3339 now))]))

/-- Registered route: method guard, path, handler. -/
structure Route where
  method : String
  path : String
  handler : DateTime → Except ActixError HttpResponse

/-- Embeds `configure_test_routes`: appends the single mapping
`GET /test → test_endpoint` to the service configuration. -/
def configure_test_routes (cfg : List Route) : List Route :=
  cfg ++ [⟨"GET", "/test", test_endpoint⟩]

/-- Framework-default response for an unmatched path. -/
def notFoundResponse : HttpResponse := ⟨404, [], none⟩

/-- Framework-default response when the path matches but no method guard does. -/
def methodNotAllowedResponse : HttpResponse := ⟨405, [], none⟩

/-- Framework-default response when a handler returns an error. -/
def internalErrorResponse : HttpResponse := ⟨500, [], none⟩

/-- Models actix-web request dispatch over the registered routes: first route
whose path and method guard both match handles the request; otherwise the
framework default (405 when only the method fails to match, 404 otherwise). -/
def dispatch (routes : List Route) (method path : String) (now : DateTime) : HttpResponse :=
  match routes.find? (fun r => r.path == path && r.method == method) with
  | some r =>
    match r.handler now with
    | .ok resp => resp
    | .error _ => internalErrorResponse
  | none =>
    if routes.any (fun r => r.path == path) then methodNotAllowedResponse
    else notFoundResponse

/-- Route table of the application built in `main`: `configure_test_routes`
applied to the empty service configuration. -/
def appRoutes : List Route := configure_test_routes []

/-- Models `std::io::Error` (opaque payload). -/
abbrev IoError : Type := String

/-- Environment of a `main` execution: the outcome the operating system gives
the TCP bind attempt on the fixed address. -/
structure BindEnv where
  outcome : Except IoError Unit

/-- Observable trace of one `main` execution: lines printed to standard
output, the address bound (if any), whether the serving loop was entered, and
the process result. -/
structure MainTrace where
  stdout : List String
  bound : Option String
  served : Bool
  result : Except IoError Unit

/-- The compile-time constant bind address in `main.rs`. -/
def bindAddr : String := "127.0.0.1:8080"

/-- The startup line printed by `main.rs` before the bind attempt. -/
def startupLine : String := "Starting Actix Web server on http://127.0.0.1:8080"

/-- Embeds `main` from `src/backend/src/main.rs` (named `rustMain` since Lean
reserves `main`): after `env_logger::init()`
it prints the startup line, then attempts the bind; `?` propagates a bind
error as the result of `main`, and only a successful bind reaches
`.run().await` (the serving loop). -/
def rustMain (env : BindEnv) : MainTrace :=
  match env.outcome with
  | Except.ok _ => ⟨[startupLine], some bindAddr, true, Except.ok ()⟩
  | Except.error e => ⟨[startupLine], none, false, Except.error e⟩

/-- RFC 3339 `time-secfrac` part: absent, or a dot followed by at least one
decimal digit. -/
def FracPartOk (frac : List Char) : Prop :=
  frac = [] ∨ ∃ ds, ds ≠ [] ∧ (∀ c ∈ ds, c.isDigit = true) ∧ frac = '.' :: ds

/-- RFC 3339 `time-offset` part: `Z`, or a sign followed by an in-range
`hh:mm` offset. -/
def OffsetPartOk (off : List Char) : Prop :=
  off = ['Z'] ∨ ∃ sign oh om, (sign = '+' ∨ sign = '-') ∧ oh ≤ 23 ∧ om ≤ 59 ∧
    off = sign :: (natDigits 2 oh ++ ':' :: natDigits 2 om)

/-- The string is a valid RFC 3339 `date-time`: it decomposes into in-range
date, time, optional fraction and offset components, each rendered as the
grammar's fixed-width digit fields (every digit string of width `k` is
`natDigits k` of its unique value, so this matches the character grammar). -/
def Rfc3339Valid (s : String) : Prop :=
  ∃ y mo d h mi se frac off,
    y ≤ 9999 ∧ 1 ≤ mo ∧ mo ≤ 12 ∧ 1 ≤ d ∧ d ≤ daysInMonth y mo ∧
    h ≤ 23 ∧ mi ≤ 59 ∧ se ≤ 60 ∧ FracPartOk frac ∧ OffsetPartOk off ∧
    s.data = natDigits 4 y ++ '-' :: (natDigits 2 mo ++ '-' :: (natDigits 2 d ++
      'T' :: (natDigits 2 h ++ ':' :: (natDigits 2 mi ++ ':' :: (natDigits 2 se ++
        (frac ++ off))))))

instance (t : DateTime) : Decidable t.Valid := by
  unfold DateTime.Valid
  infer_instance

instance (t1 t2 : DateTime) : Decidable (DateTime.le t1 t2) := by
  unfold DateTime.le
  infer_instance

instance (d : Date) : Decidable (ValidDate d) := by
  unfold ValidDate
  infer_instance

theorem dchar_lt_iff {a b : Nat} (ha : a < 10) (hb : b < 10) : (dchar a < dchar b ↔ a < b) :=
  (by decide : ∀ a : Fin 10, ∀ b : Fin 10, (dchar a.val < dchar b.val ↔ a.val < b.val))
    ⟨a, ha⟩ ⟨b, hb⟩

theorem dchar_isDigit {a : Nat} (ha : a < 10) : (dchar a).isDigit = true :=
  (by decide : ∀ a : Fin 10, (dchar a.val).isDigit = true) ⟨a, ha⟩

theorem plus_lt_of_isDigit {c : Char} (h : c.isDigit = true) : '+' < c := by
  have h0 : '0' ≤ c := by
    simp only [Char.isDigit, Bool.and_eq_true, decide_eq_true_eq] at h
    exact h.1
  exact lt_of_lt_of_le (by decide : '+' < '0') h0

theorem length_natDigits (k n : Nat) : (natDigits k n).length = k := by
  induction k generalizing n with
  | zero => rfl
  | succ k ih => simp [natDigits, ih]

theorem natDigits_digits {k : Nat} : ∀ {n : Nat}, n < 10 ^ k → ∀ c ∈ natDigits k n, c.isDigit = true := by
  induction k with
  | zero => intro n _ c hc; simp [natDigits] at hc
  | succ k ih =>
    intro n hn c hc
    have hpos : 0 < 10 ^ k := Nat.pos_pow_of_pos k (by norm_num)
    simp only [natDigits, List.mem_cons] at hc
    rcases hc with h | h
    · subst h
      exact dchar_isDigit (Nat.div_lt_of_lt_mul (by rw [← pow_succ]; exact hn))
    · exact ih (Nat.mod_lt _ hpos) _ h

theorem natDigits_lt {k : Nat} : ∀ {n1 n2 : Nat}, n1 < n2 → n2 < 10 ^ k →
    List.Lex (· < ·) (natDigits k n1) (natDigits k n2) := by
  induction k with
  | zero => intro n1 n2 h12 h2; norm_num at h2; omega
  | succ k ih =>
    intro n1 n2 h12 h2
    have hpos : 0 < 10 ^ k := Nat.pos_pow_of_pos k (by norm_num)
    have ha2 : n2 / 10 ^ k < 10 := Nat.div_lt_of_lt_mul (by rw [← pow_succ]; exact h2)
    have ha1 : n1 / 10 ^ k < 10 := Nat.div_lt_of_lt_mul (by rw [← pow_succ]; exact lt_trans h12 h2)
    simp only [natDigits]
    rcases Nat.lt_trichotomy (n1 / 10 ^ k) (n2 / 10 ^ k) with hlt | heq | hgt
    · exact List.Lex.rel ((dchar_lt_iff ha1 ha2).mpr hlt)
    · rw [heq]
      refine List.Lex.cons (ih ?_ (Nat.mod_lt _ hpos))
      have e1 := Nat.div_add_mod n1 (10 ^ k)
      have e2 := Nat.div_add_mod n2 (10 ^ k)
      rw [heq] at e1
      omega
    · exfalso
      have e1 := Nat.div_add_mod n1 (10 ^ k)
      have e2 := Nat.div_add_mod n2 (10 ^ k)
      have hr2 : n2 % 10 ^ k < 10 ^ k := Nat.mod_lt _ hpos
      have hmul : 10 ^ k * (n2 / 10 ^ k + 1) ≤ 10 ^ k * (n1 / 10 ^ k) :=
        Nat.mul_le_mul_left _ (by omega)
      have hexp : 10 ^ k * (n2 / 10 ^ k + 1) = 10 ^ k * (n2 / 10 ^ k) + 10 ^ k := by ring
      omega

theorem natDigits_take : ∀ (j K n : Nat), j ≤ K →
    List.take j (natDigits K n) = natDigits j (n / 10 ^ (K - j))
  | 0, K, n, _ => by simp [natDigits]
  | j+1, 0, n, h => by omega
  | j+1, K+1, n, h => by
    have hjK : j ≤ K := by omega
    have hK : K - j + j = K := by omega
    have hKj : K + 1 - (j + 1) = K - j := by omega
    simp only [natDigits, List.take_succ_cons]
    rw [natDigits_take j K _ hjK, hKj]
    have h1 : n / 10 ^ (K - j) / 10 ^ j = n / 10 ^ K := by
      rw [Nat.div_div_eq_div_mul, ← pow_add, hK]
    have h2 : n / 10 ^ (K - j) % 10 ^ j = n % 10 ^ K / 10 ^ (K - j) := by
      have h3 := Nat.mod_mul_right_div_self n (10 ^ (K - j)) (10 ^ j)
      rw [← pow_add, hK] at h3
      exact h3.symm
    rw [h1, h2]

theorem lex_append_of_lex {u v x y : List Char} (hlen : u.length = v.length)
    (h : List.Lex (· < ·) u v) : List.Lex (· < ·) (u ++ x) (v ++ y) := by
  induction h with
  | nil => simp at hlen
  | @rel a1 l1 a2 l2 hr => exact List.Lex.rel hr
  | @cons a l1 l2 hl ih => exact List.Lex.cons (ih (by simpa using hlen))

theorem str_le_of_lex {s t : String} (h : List.Lex (· < ·) s.data t.data) : s ≤ t := by
  apply String.le_iff_toList_le.mpr
  exact le_of_lt h

theorem str_le_of_eq {s t : String} (h : s.data = t.data) : s ≤ t := by
  apply String.le_iff_toList_le.mpr
  exact le_of_eq h

theorem daysInMonth_bounds (y m : Nat) : 28 ≤ daysInMonth y m ∧ daysInMonth y m ≤ 31 := by
  unfold daysInMonth
  split_ifs <;> omega

theorem nextDate_valid {d : Date} (h : ValidDate d) : ValidDate (nextDate d) := by
  obtain ⟨h1, h2, h3, h4⟩ := h
  have hb := daysInMonth_bounds d.year d.month
  unfold nextDate
  split_ifs with ha hb'
  · exact ⟨h1, h2, by show 1 ≤ d.day + 1; omega, by show d.day + 1 ≤ daysInMonth d.year d.month; omega⟩
  · have hc := daysInMonth_bounds d.year (d.month + 1)
    exact ⟨by show 1 ≤ d.month + 1; omega, by show d.month + 1 ≤ 12; omega, le_refl 1,
      by show 1 ≤ daysInMonth d.year (d.month + 1); omega⟩
  · have hc := daysInMonth_bounds (d.year + 1) 1
    exact ⟨le_refl 1, by show (1 : Nat) ≤ 12; omega, le_refl 1,
      by show 1 ≤ daysInMonth (d.year + 1) 1; omega⟩

theorem dateOfDays_succ (n : Nat) : dateOfDays (n + 1) = nextDate (dateOfDays n) :=
  Function.iterate_succ_apply' nextDate n epochDate

theorem dateOfDays_valid (n : Nat) : ValidDate (dateOfDays n) := by
  induction n with
  | zero =>
    unfold ValidDate
    exact ⟨by decide, by decide, by decide, by decide⟩
  | succ m ih => rw [dateOfDays_succ]; exact nextDate_valid ih

theorem nextDate_lt (d : Date) : Date.lt d (nextDate d) := by
  unfold nextDate
  split_ifs with hA hB
  · exact Or.inr ⟨rfl, Or.inr ⟨rfl, Nat.lt_succ_self _⟩⟩
  · exact Or.inr ⟨rfl, Or.inl (Nat.lt_succ_self _)⟩
  · exact Or.inl (Nat.lt_succ_self _)

theorem Date.lt_trans {a b c : Date} (h1 : Date.lt a b) (h2 : Date.lt b c) : Date.lt a c := by
  unfold Date.lt at *
  omega

theorem dateOfDays_lt {n1 n2 : Nat} (h : n1 < n2) : Date.lt (dateOfDays n1) (dateOfDays n2) := by
  induction n2 with
  | zero => omega
  | succ m ih =>
    rcases Nat.lt_succ_iff_lt_or_eq.mp h with hlt | heq
    · exact Date.lt_trans (ih hlt) (by rw [dateOfDays_succ]; exact nextDate_lt _)
    · subst heq; rw [dateOfDays_succ]; exact nextDate_lt _

theorem dateChars_lex {a b : Date} (hva : ValidDate a) (hvb : ValidDate b)
    (hya : a.year ≤ 9999) (hyb : b.year ≤ 9999) (h : Date.lt a b) :
    List.Lex (· < ·) (dateChars a) (dateChars b) := by
  obtain ⟨ha1, ha2, ha3, ha4⟩ := hva
  obtain ⟨hb1, hb2, hb3, hb4⟩ := hvb
  have hda := (daysInMonth_bounds a.year a.month).2
  have hdb := (daysInMonth_bounds b.year b.month).2
  have hy9 : a.year ≤ 9999 := hya
  unfold dateChars
  rcases h with hy | ⟨hy, hm | ⟨hm, hd⟩⟩
  · exact lex_append_of_lex (by simp [length_natDigits]) (natDigits_lt hy (by norm_num; omega))
  · rw [hy]
    refine List.Lex.append_left _ ?_ _
    refine List.Lex.cons ?_
    exact lex_append_of_lex (by simp [length_natDigits]) (natDigits_lt hm (by norm_num; omega))
  · rw [hy, hm]
    refine List.Lex.append_left _ ?_ _
    refine List.Lex.cons ?_
    refine List.Lex.append_left _ ?_ _
    refine List.Lex.cons ?_
    exact natDigits_lt hd (by norm_num; omega)

theorem timeChars_lex {s1 s2 : Nat} (h12 : s1 < s2) (h2 : s2 < 86400) :
    List.Lex (· < ·) (timeChars s1) (timeChars s2) := by
  unfold timeChars
  rcases Nat.lt_trichotomy (s1 / 3600) (s2 / 3600) with hh | hh | hh
  · exact lex_append_of_lex (by simp [length_natDigits]) (natDigits_lt hh (by norm_num; omega))
  · rw [hh]
    refine List.Lex.append_left _ ?_ _
    refine List.Lex.cons ?_
    rcases Nat.lt_trichotomy (s1 % 3600 / 60) (s2 % 3600 / 60) with hm | hm | hm
    · exact lex_append_of_lex (by simp [length_natDigits]) (natDigits_lt hm (by norm_num; omega))
    · rw [hm]
      refine List.Lex.append_left _ ?_ _
      refine List.Lex.cons ?_
      refine natDigits_lt (by omega) (by norm_num; omega)
    · omega
  · omega

theorem fracCore {k1 k2 n1 n2 : Nat} (hk13 : 3 ≤ k1) (hk19 : k1 ≤ 9) (hk23 : 3 ≤ k2) (hk29 : k2 ≤ 9)
    (hz1 : n1 % 10 ^ (9 - k1) = 0) (hz2 : n2 % 10 ^ (9 - k2) = 0)
    (h2 : n2 < 10 ^ 9) (h12 : n1 < n2) :
    List.Lex (· < ·) (natDigits k1 (n1 / 10 ^ (9 - k1)) ++ offChars)
      (natDigits k2 (n2 / 10 ^ (9 - k2)) ++ offChars) := by
  set j := min k1 k2 with hj
  have hj1 : j ≤ k1 := by omega
  have hj2 : j ≤ k2 := by omega
  have hd1 : natDigits k1 (n1 / 10 ^ (9 - k1)) =
      natDigits j (n1 / 10 ^ (9 - j)) ++ List.drop j (natDigits k1 (n1 / 10 ^ (9 - k1))) := by
    have e := List.take_append_drop j (natDigits k1 (n1 / 10 ^ (9 - k1)))
    rw [natDigits_take j k1 _ hj1] at e
    have harith : n1 / 10 ^ (9 - k1) / 10 ^ (k1 - j) = n1 / 10 ^ (9 - j) := by
      rw [Nat.div_div_eq_div_mul, ← pow_add]
      have hexp : 9 - k1 + (k1 - j) = 9 - j := by omega
      rw [hexp]
    rw [harith] at e
    exact e.symm
  have hd2 : natDigits k2 (n2 / 10 ^ (9 - k2)) =
      natDigits j (n2 / 10 ^ (9 - j)) ++ List.drop j (natDigits k2 (n2 / 10 ^ (9 - k2))) := by
    have e := List.take_append_drop j (natDigits k2 (n2 / 10 ^ (9 - k2)))
    rw [natDigits_take j k2 _ hj2] at e
    have harith : n2 / 10 ^ (9 - k2) / 10 ^ (k2 - j) = n2 / 10 ^ (9 - j) := by
      rw [Nat.div_div_eq_div_mul, ← pow_add]
      have hexp : 9 - k2 + (k2 - j) = 9 - j := by omega
      rw [hexp]
    rw [harith] at e
    exact e.symm
  have hb2 : n2 / 10 ^ (9 - j) < 10 ^ j := by
    apply Nat.div_lt_of_lt_mul
    rw [← pow_add]
    have hexp : 9 - j + j = 9 := by omega
    rw [hexp]
    exact h2
  have hle : n1 / 10 ^ (9 - j) ≤ n2 / 10 ^ (9 - j) := Nat.div_le_div_right (le_of_lt h12)
  rcases lt_or_eq_of_le hle with hlt | heq
  · rw [hd1, hd2, List.append_assoc, List.append_assoc]
    exact lex_append_of_lex (by simp [length_natDigits]) (natDigits_lt hlt hb2)
  · rcases Nat.lt_trichotomy k1 k2 with hk | hk | hk
    · have hD1 : List.drop j (natDigits k1 (n1 / 10 ^ (9 - k1))) = [] := by
        refine List.drop_eq_nil_of_le ?_
        rw [length_natDigits]
        omega
      have hlen2 : (List.drop j (natDigits k2 (n2 / 10 ^ (9 - k2)))).length = k2 - j := by
        rw [List.length_drop, length_natDigits]
      have hne : List.drop j (natDigits k2 (n2 / 10 ^ (9 - k2))) ≠ [] := by
        intro hc
        rw [hc] at hlen2
        simp at hlen2
        omega
      obtain ⟨c, rest, hcr⟩ := List.exists_cons_of_ne_nil hne
      have hbv2 : n2 / 10 ^ (9 - k2) < 10 ^ k2 := by
        apply Nat.div_lt_of_lt_mul
        rw [← pow_add]
        have hexp : 9 - k2 + k2 = 9 := by omega
        rw [hexp]
        exact h2
      have hcdig : c.isDigit = true := by
        refine natDigits_digits hbv2 c (List.mem_of_mem_drop (n := j) ?_)
        rw [hcr]
        exact List.mem_cons_self c rest
      rw [hd1, hD1, List.append_nil, hd2, heq, List.append_assoc, hcr]
      refine List.Lex.append_left _ ?_ _
      show List.Lex (· < ·) offChars (c :: (rest ++ offChars))
      have hoff : offChars = '+' :: ['0', '0', ':', '0', '0'] := rfl
      rw [hoff]
      exact List.Lex.rel (plus_lt_of_isDigit hcdig)
    · exfalso
      have e1 := Nat.div_add_mod n1 (10 ^ (9 - j))
      have e2 := Nat.div_add_mod n2 (10 ^ (9 - j))
      have hz1' : n1 % 10 ^ (9 - j) = 0 := by
        rw [show 9 - j = 9 - k1 by omega]
        exact hz1
      have hz2' : n2 % 10 ^ (9 - j) = 0 := by
        rw [show 9 - j = 9 - k2 by omega]
        exact hz2
      rw [heq] at e1
      omega
    · exfalso
      have e2 := Nat.div_add_mod n2 (10 ^ (9 - j))
      have hz2' : n2 % 10 ^ (9 - j) = 0 := by
        rw [show 9 - j = 9 - k2 by omega]
        exact hz2
      have hle1 : 10 ^ (9 - j) * (n1 / 10 ^ (9 - j)) ≤ n1 := by
        rw [mul_comm]
        exact Nat.div_mul_le_self _ _
      rw [heq] at hle1
      omega

theorem fracBranch (n : Nat) (hn : n ≠ 0) :
    ∃ k, 3 ≤ k ∧ k ≤ 9 ∧ n % 10 ^ (9 - k) = 0 ∧
      fracChars n = '.' :: natDigits k (n / 10 ^ (9 - k)) := by
  unfold fracChars
  rw [if_neg hn]
  by_cases ha : n % 1000000 = 0
  · refine ⟨3, by norm_num, by norm_num, by norm_num; exact ha, ?_⟩
    rw [if_pos ha]
    norm_num
  · rw [if_neg ha]
    by_cases hb : n % 1000 = 0
    · refine ⟨6, by norm_num, by norm_num, by norm_num; exact hb, ?_⟩
      rw [if_pos hb]
      norm_num
    · refine ⟨9, by norm_num, by norm_num, by simp [Nat.mod_one], ?_⟩
      rw [if_neg hb]
      norm_num

theorem fracChars_lex {n1 n2 : Nat} (h2 : n2 < 1000000000) (h12 : n1 < n2) :
    List.Lex (· < ·) (fracChars n1 ++ offChars) (fracChars n2 ++ offChars) := by
  have h2' : n2 < 10 ^ 9 := by norm_num; exact h2
  have hn2 : n2 ≠ 0 := by omega
  obtain ⟨k2, hk23, hk29, hz2, hf2⟩ := fracBranch n2 hn2
  by_cases hz1 : n1 = 0
  · subst hz1
    rw [hf2]
    show List.Lex (· < ·) (fracChars 0 ++ offChars) _
    have h0 : fracChars 0 = [] := rfl
    rw [h0, List.nil_append]
    simp only [List.cons_append]
    have hoff : offChars = '+' :: ['0', '0', ':', '0', '0'] := rfl
    rw [hoff]
    exact List.Lex.rel (by decide)
  · obtain ⟨k1, hk13, hk19, hz1', hf1⟩ := fracBranch n1 hz1
    rw [hf1, hf2]
    simp only [List.cons_append]
    exact List.Lex.cons (fracCore hk13 hk19 hk23 hk29 hz1' hz2 h2' h12)

theorem to_rfc3339_le {t1 t2 : DateTime} (hv2 : t2.Valid)
    (hy1 : (dateOfDays (t1.secs / 86400)).year ≤ 9999)
    (hy2 : (dateOfDays (t2.secs / 86400)).year ≤ 9999)
    (h : DateTime.le t1 t2) : to_rfc3339 t1 ≤ to_rfc3339 t2 := by
  rcases h with hs | ⟨hs, hn⟩
  · apply str_le_of_lex
    show List.Lex (· < ·) (rfc3339Chars t1) (rfc3339Chars t2)
    unfold rfc3339Chars
    rcases Nat.lt_or_ge (t1.secs / 86400) (t2.secs / 86400) with hd | hd
    · exact lex_append_of_lex (by simp [dateChars, length_natDigits])
        (dateChars_lex (dateOfDays_valid _) (dateOfDays_valid _) hy1 hy2 (dateOfDays_lt hd))
    · have hdeq : t1.secs / 86400 = t2.secs / 86400 := by
        have hmono : t1.secs / 86400 ≤ t2.secs / 86400 := Nat.div_le_div_right (le_of_lt hs)
        omega
      rw [hdeq]
      refine List.Lex.append_left _ ?_ _
      refine List.Lex.cons ?_
      have hsod : t1.secs % 86400 < t2.secs % 86400 := by omega
      exact lex_append_of_lex (by simp [timeChars, length_natDigits])
        (timeChars_lex hsod (Nat.mod_lt _ (by norm_num)))
  · rcases Nat.lt_or_ge t1.nanos t2.nanos with hfr | hfr
    · apply str_le_of_lex
      show List.Lex (· < ·) (rfc3339Chars t1) (rfc3339Chars t2)
      unfold rfc3339Chars
      rw [hs]
      refine List.Lex.append_left _ ?_ _
      refine List.Lex.cons ?_
      refine List.Lex.append_left _ ?_ _
      exact fracChars_lex hv2 hfr
    · have hne : t1.nanos = t2.nanos := by omega
      apply str_le_of_eq
      show rfc3339Chars t1 = rfc3339Chars t2
      unfold rfc3339Chars
      rw [hs, hne]

theorem fracPartOk_fracChars {n : Nat} (h : n < 1000000000) : FracPartOk (fracChars n) := by
  by_cases hz : n = 0
  · left
    rw [hz]
    rfl
  · right
    obtain ⟨k, hk3, hk9, hzt, hf⟩ := fracBranch n hz
    refine ⟨natDigits k (n / 10 ^ (9 - k)), ?_, ?_, hf⟩
    · intro hnil
      have hlen := length_natDigits k (n / 10 ^ (9 - k))
      rw [hnil] at hlen
      simp at hlen
      omega
    · refine natDigits_digits ?_
      apply Nat.div_lt_of_lt_mul
      rw [← pow_add]
      have hexp : 9 - k + k = 9 := by omega
      rw [hexp]
      norm_num
      exact h

theorem offsetPartOk_offChars : OffsetPartOk offChars := by
  right
  refine ⟨'+', 0, 0, Or.inl rfl, by norm_num, by norm_num, by decide⟩

theorem to_rfc3339_valid {t : DateTime} (hv : t.Valid)
    (hy : (dateOfDays (t.secs / 86400)).year ≤ 9999) : Rfc3339Valid (to_rfc3339 t) := by
  obtain ⟨h1, h2, h3, h4⟩ := dateOfDays_valid (t.secs / 86400)
  have hsod : t.secs % 86400 < 86400 := Nat.mod_lt _ (by norm_num)
  refine ⟨(dateOfDays (t.secs / 86400)).year, (dateOfDays (t.secs / 86400)).month,
    (dateOfDays (t.secs / 86400)).day, t.secs % 86400 / 3600, t.secs % 86400 % 3600 / 60,
    t.secs % 86400 % 60, fracChars t.nanos, offChars,
    hy, h1, h2, h3, h4, by omega, by omega, by omega,
    fracPartOk_fracChars hv, offsetPartOk_offChars, ?_⟩
  show rfc3339Chars t = _
  unfold rfc3339Chars dateChars timeChars
  simp [List.append_assoc, List.cons_append]

theorem to_rfc3339_epoch : to_rfc3339 ⟨0, 0⟩ = "1970-01-01T00:00:00+00:00" := by decide

/-- C1: every request dispatched to `GET /test` is handled by `test_endpoint`,
whose result is `Ok` of a response with HTTP status exactly 200. -/
theorem C1_get_test_status_200 (now : DateTime) :
    (dispatch appRoutes "GET" "/test" now).status = 200 ∧
    ∃ r, test_endpoint now = Except.ok r ∧ r.status = 200 :=
  ⟨rfl, ⟨_, rfl, rfl⟩⟩

/-- C2: every response of the handler carries a JSON object body whose
`message` field is exactly "Test endpoint is working!" and whose `status`
field is exactly "success", alongside a `timestamp` field. -/
theorem C2_body_fixed_fields (now : DateTime) :
    ∃ body, (dispatch appRoutes "GET" "/test" now).body = some body ∧
      body.getField "message" = some (Json.str "Test endpoint is working!") ∧
      body.getField "status" = some (Json.str "success") ∧
      ∃ ts, body.getField "timestamp" = some (Json.str ts) :=
  ⟨_, rfl, rfl, rfl, ⟨to_rfc3339 now, rfl⟩⟩

/-- C3: the `timestamp` field of the response body is the RFC 3339 rendering
of the clock value sampled at the moment the handler executes (the `now` of
this very invocation, not any server-start value), and that rendering is a
valid RFC 3339 instant. Hypotheses: the sampled instant has a well-formed
nanosecond part and its calendar year still has four digits. -/
theorem C3_timestamp_rfc3339 (now : DateTime) (hval : now.Valid)
    (hyear : (dateOfDays (now.secs / 86400)).year ≤ 9999) :
    ∃ body, (dispatch appRoutes "GET" "/test" now).body = some body ∧
      body.getField "timestamp" = some (Json.str (to_rfc3339 now)) ∧
      Rfc3339Valid (to_rfc3339 now) :=
  ⟨_, rfl, rfl, to_rfc3339_valid hval hyear⟩

theorem C3_timestamp_rfc3339_witness :
    (DateTime.mk 0 0).Valid ∧ (dateOfDays ((DateTime.mk 0 0).secs / 86400)).year ≤ 9999 ∧
    (∃ body, (dispatch appRoutes "GET" "/test" ⟨0, 0⟩).body = some body ∧
      body.getField "timestamp" = some (Json.str (to_rfc3339 ⟨0, 0⟩)) ∧
      Rfc3339Valid (to_rfc3339 ⟨0, 0⟩)) :=
  ⟨by decide, by decide, C3_timestamp_rfc3339 ⟨0, 0⟩ (by decide) (by decide)⟩

/-- C4: the route configuration registers exactly the one mapping
`GET /test → test_endpoint`, and a request to `/test` with any non-GET method
gets the framework-default response, which is not the success payload (its
status is not 200 and it has no body). -/
theorem C4_route_table_and_method_guard :
    appRoutes = [⟨"GET", "/test", test_endpoint⟩] ∧
    (∀ m, m ≠ "GET" → ∀ now, dispatch appRoutes m "/test" now = methodNotAllowedResponse) ∧
    methodNotAllowedResponse.status ≠ 200 ∧ methodNotAllowedResponse.body = none := by
  refine ⟨rfl, ?_, by decide, rfl⟩
  intro m hm now
  have hbeq : (("GET" : String) == m) = false := beq_eq_false_iff_ne.mpr (Ne.symm hm)
  unfold dispatch appRoutes configure_test_routes
  simp [List.find?, List.any, hbeq]

theorem C4_route_table_and_method_guard_witness :
    ("POST" : String) ≠ "GET" ∧
    dispatch appRoutes "POST" "/test" ⟨0, 0⟩ = methodNotAllowedResponse :=
  ⟨by decide, C4_route_table_and_method_guard.2.1 "POST" (by decide) ⟨0, 0⟩⟩

/-- C5: when binding the TCP listener fails, startup is fatal: `main`
propagates the bind error as its result, never enters the serving loop, and
binds no address. -/
theorem C5_bind_failure_fatal (env : BindEnv) (e : IoError) (h : env.outcome = Except.error e) :
    (rustMain env).result = Except.error e ∧ (rustMain env).served = false ∧
    (rustMain env).bound = none := by
  unfold rustMain
  rw [h]
  exact ⟨rfl, rfl, rfl⟩

theorem C5_bind_failure_fatal_witness :
    (BindEnv.mk (Except.error "address in use")).outcome = Except.error "address in use" ∧
    ((rustMain ⟨Except.error "address in use"⟩).result = Except.error "address in use" ∧
     (rustMain ⟨Except.error "address in use"⟩).served = false ∧
     (rustMain ⟨Except.error "address in use"⟩).bound = none) :=
  ⟨rfl, C5_bind_failure_fatal _ _ rfl⟩

/-- C6: two successive invocations of the handler produce structurally
identical responses (same status, headers, `message` and `status` body
fields) except for the `timestamp` field, and the second timestamp is
monotonically non-decreasing (as a string, hence as an instant) relative to
the first. Hypotheses: the second instant is well formed, both fall in the
four-digit-year range, and the invocations are in chronological order. -/
theorem C6_idempotent_modulo_timestamp (t1 t2 : DateTime) (hv2 : t2.Valid)
    (hy1 : (dateOfDays (t1.secs / 86400)).year ≤ 9999)
    (hy2 : (dateOfDays (t2.secs / 86400)).year ≤ 9999)
    (hle : DateTime.le t1 t2) :
    (dispatch appRoutes "GET" "/test" t1).status = (dispatch appRoutes "GET" "/test" t2).status ∧
    (dispatch appRoutes "GET" "/test" t1).headers = (dispatch appRoutes "GET" "/test" t2).headers ∧
    (∃ b1 b2, (dispatch appRoutes "GET" "/test" t1).body = some b1 ∧
      (dispatch appRoutes "GET" "/test" t2).body = some b2 ∧
      b1.getField "message" = b2.getField "message" ∧
      b1.getField "status" = b2.getField "status" ∧
      b1.getField "timestamp" = some (Json.str (to_rfc3339 t1)) ∧
      b2.getField "timestamp" = some (Json.str (to_rfc3339 t2))) ∧
    to_rfc3339 t1 ≤ to_rfc3339 t2 :=
  ⟨rfl, rfl, ⟨_, _, rfl, rfl, rfl, rfl, rfl, rfl⟩, to_rfc3339_le hv2 hy1 hy2 hle⟩

theorem C6_idempotent_modulo_timestamp_witness :
    (DateTime.mk 1 0).Valid ∧ DateTime.le ⟨0, 0⟩ ⟨1, 0⟩ ∧
    to_rfc3339 ⟨0, 0⟩ ≤ to_rfc3339 ⟨1, 0⟩ :=
  ⟨by decide, by decide,
    (C6_idempotent_modulo_timestamp ⟨0, 0⟩ ⟨1, 0⟩ (by decide) (by decide) (by decide)
      (by decide)).2.2.2⟩

/-- C7: every response produced by `test_endpoint` carries the header
`Content-Type: application/json` (it is in fact the only header). -/
theorem C7_content_type_json (now : DateTime) :
    ∃ r, test_endpoint now = Except.ok r ∧
      ("Content-Type", "application/json") ∈ r.headers ∧
      (dispatch appRoutes "GET" "/test" now).headers = [("Content-Type", "application/json")] :=
  ⟨_, rfl, by simp [HttpResponseBuilder.json], rfl⟩

/-- C8: the handler has no error conditions: its `Result` is always the `Ok`
variant and the error branch is unreachable (timestamp capture and JSON
serialization are total on the values involved, as embedded). -/
theorem C8_handler_never_errors (now : DateTime) :
    (∃ r, test_endpoint now = Except.ok r) ∧ ∀ e, test_endpoint now ≠ Except.error e :=
  ⟨⟨_, rfl⟩, fun e h => Except.noConfusion h⟩

/-- C9: on a successful bind, `run` binds the fixed compile-time constant
loopback address `127.0.0.1:8080` (not the `0.0.0.0:8080` variant), and the
emitted startup line indicates that same bound address. -/
theorem C9_bind_address_loopback (env : BindEnv) (h : env.outcome = Except.ok ()) :
    (rustMain env).bound = some bindAddr ∧ bindAddr = "127.0.0.1:8080" ∧
    bindAddr ≠ "0.0.0.0:8080" ∧
    startupLine = "Starting Actix Web server on http://" ++ bindAddr := by
  unfold rustMain
  rw [h]
  exact ⟨rfl, rfl, by decide, by decide⟩

theorem C9_bind_address_loopback_witness :
    (BindEnv.mk (Except.ok ())).outcome = Except.ok () ∧
    (rustMain ⟨Except.ok ()⟩).bound = some bindAddr :=
  ⟨rfl, (C9_bind_address_loopback ⟨Except.ok ()⟩ rfl).1⟩

/-- C10: the startup line is printed unconditionally before the bind attempt,
so the trace of every execution of `main` — including those whose bind fails
and whose result is an error — contains exactly the startup line on standard
output. -/
theorem C10_startup_line_before_bind (env : BindEnv) :
    (rustMain env).stdout = [startupLine] := by
  unfold rustMain
  cases h : env.outcome with
  | ok u => rfl
  | error e => rfl
